import Mathlib

/-!
Verification of the climate-visualizer statistical core.

The repository's frontend (React screens under `src/`) consumes a statistical
backend through JSON contracts.  The map component (`MapSection`) and the
scatter sampling helper (`sampleAndJitter`) live in the frontend sources and
are embedded here directly from the code.  The statistical operations
(spike detection, trend classification, Pearson correlation, forecasting,
anomaly detection, what-if emission analysis) live in a backend that is not
part of the repository snapshot; those are modelled from the specification,
as marked in each doc comment.
-/

namespace Climate

/-! ### Health-impact lookup (from `MapSection`, `src/unnamed/part_002`) -/

/-- One row of the `AQI_COLORS` table from `MapSection`. -/
structure AQIRange where
  max : ℚ
  color : String
  label : String
deriving DecidableEq, Repr

/-- The `AQI_COLORS` breakpoint table, verbatim from `MapSection`. -/
def AQI_COLORS : List AQIRange :=
  [⟨50, "#43a047", "Good"⟩,
   ⟨100, "#fbc02d", "Moderate"⟩,
   ⟨150, "#fb8c00", "Unhealthy for Sensitive"⟩,
   ⟨200, "#e53935", "Unhealthy"⟩,
   ⟨300, "#8e24aa", "Very Unhealthy"⟩,
   ⟨500, "#6d4c41", "Hazardous"⟩]

/-- `getAQIColor` from `MapSection`: first table row with `aqi ≤ max` wins,
falling back to the hazardous colour; `null` renders grey. -/
def getAQIColor : Option ℚ → String
  | none => "#bdbdbd"
  | some aqi =>
    match AQI_COLORS.find? (fun r => aqi ≤ r.max) with
    | some r => r.color
    | none => "#6d4c41"

/-- The ordinal category of an AQI value: the label paired with the colour
`getAQIColor` selects (the fallback colour `#6d4c41` is the hazardous one). -/
def aqiCategory (aqi : ℚ) : String :=
  match AQI_COLORS.find? (fun r => aqi ≤ r.max) with
  | some r => r.label
  | none => "Hazardous"

/-! ### Map markers (from `MapSection`, `src/unnamed/part_002`) -/

/-- One input row handed to `MapSection`: a city name, a date (modelled as an
integer timestamp, as produced by `new Date(...)`), and an optional AQI. -/
structure Obs where
  city : String
  date : ℤ
  aqi : Option ℚ
deriving DecidableEq, Repr

/-- One update step of the `latestByCity` loop for a fixed city: the stored
row is replaced only when the incoming row's date is strictly larger. -/
def chooseLater (cur d : Obs) : Obs :=
  if cur.date < d.date then d else cur

/-- Fold of `chooseLater` along the remaining rows of a city. -/
def chooseMax (cur : Obs) : List Obs → Obs
  | [] => cur
  | d :: rest => chooseMax (chooseLater cur d) rest

/-- The final `latestByCity[c]` entry: the dictionary is keyed by city, so its
value for `c` is the fold of the update step over the rows whose `City` is
`c`, in input order (first such row initialises the entry). -/
def latestByCity (data : List Obs) (c : String) : Option Obs :=
  match data.filter (fun d => d.city == c) with
  | [] => none
  | d :: rest => some (chooseMax d rest)

/-- `Array.from(new Set(data.map(d => d.City)))`: distinct city names in
first-occurrence order. -/
def jsUnique (l : List String) : List String :=
  l.foldl (fun acc c => if c ∈ acc then acc else acc ++ [c]) []

/-! ### Spike detection (Trend Analyzer) -/

/-- Insert into a sorted rational list. -/
def insertQ (a : ℚ) : List ℚ → List ℚ
  | [] => [a]
  | b :: l => if a ≤ b then a :: b :: l else b :: insertQ a l

/-- Ascending insertion sort on rationals. -/
def sortQ : List ℚ → List ℚ
  | [] => []
  | a :: l => insertQ a (sortQ l)

/-- Modelled from the spec: the backend's percentile computation is not in the
repository.  Linear-interpolation percentile (the pandas/numpy default) at
probability `a / b`: over `n` sorted values, interpolate at fractional rank
`(a / b) · (n − 1)`; the natural division `a * (n − 1) / b` is exactly the
floor of that rank. -/
def percentile (a b : ℕ) (l : List ℚ) : ℚ :=
  let s := sortQ l
  let n := s.length
  if n = 0 then 0
  else
    let i : ℕ := a * (n - 1) / b
    let h : ℚ := (a : ℚ) * ((n : ℚ) - 1) / (b : ℚ)
    let lo := s.getD i 0
    let hi := s.getD (i + 1) lo
    lo + (h - (i : ℚ)) * (hi - lo)

/-- One aggregate point of a city series: a chronological bucket key
(year-month or day index) and its AQI. -/
structure TPoint where
  t : ℕ
  aqi : ℚ
deriving DecidableEq, Repr

/-- Modelled from the spec: spike threshold is the 90th percentile of the
city's full AQI distribution. -/
def spikeThreshold (series : List TPoint) : ℚ :=
  percentile 9 10 (series.map TPoint.aqi)

/-- Modelled from the spec: any aggregate point exceeding the 90th-percentile
threshold is a spike; filtering preserves the chronological input order. -/
def spikes (series : List TPoint) : List TPoint :=
  series.filter (fun x => spikeThreshold series < x.aqi)

/-- A series is chronological when bucket keys strictly increase. -/
def Chron (l : List TPoint) : Prop :=
  l.Pairwise (fun a b => a.t < b.t)

instance : DecidablePred Chron := fun l =>
  List.instDecidablePairwise l

/-- The spec's end-to-end example: city "Delhi", AQI values
`[80, 85, 90, 95, 300, 88, 82]` over 7 consecutive days. -/
def delhi : List TPoint :=
  [⟨0, 80⟩, ⟨1, 85⟩, ⟨2, 90⟩, ⟨3, 95⟩, ⟨4, 300⟩, ⟨5, 88⟩, ⟨6, 82⟩]

/-! ### Trend classification (Trend Analyzer) -/

/-- Sum of the time indices `0, …, n−1` of a monthly series. -/
def sIdx (n : ℕ) : ℚ := ∑ i ∈ Finset.range n, (i : ℚ)

/-- Sum of squared time indices. -/
def sIdxSq (n : ℕ) : ℚ := ∑ i ∈ Finset.range n, ((i : ℚ)) ^ 2

/-- Sum of the series values. -/
def sVal (y : List ℚ) : ℚ := ∑ i ∈ Finset.range y.length, y.getD i 0

/-- Sum of index-weighted series values. -/
def sIdxVal (y : List ℚ) : ℚ := ∑ i ∈ Finset.range y.length, (i : ℚ) * y.getD i 0

/-- Numerator of the least-squares slope of the series against time
`0, …, n−1`. -/
def lsNum (y : List ℚ) : ℚ := (y.length : ℚ) * sIdxVal y - sIdx y.length * sVal y

/-- Denominator of the least-squares slope (depends only on the length). -/
def lsDen (n : ℕ) : ℚ := (n : ℚ) * sIdxSq n - sIdx n ^ 2

/-- Modelled from the spec: the backend's trend fit is not in the repository.
Ordinary least-squares slope of the AQI series over time indices
`0, …, n−1`. -/
def lsSlope (y : List ℚ) : ℚ := lsNum y / lsDen y.length

/-- Arithmetic mean of a series (0 on the empty series). -/
def meanQ (y : List ℚ) : ℚ := sVal y / (y.length : ℚ)

/-- Least-squares intercept: `ȳ − slope · x̄`. -/
def lsIntercept (y : List ℚ) : ℚ :=
  meanQ y - lsSlope y * (sIdx y.length / (y.length : ℚ))

/-- The four trend labels of the spec. -/
inductive Trend
  | improving
  | deteriorating
  | stable
  | insufficientData
deriving DecidableEq, Repr

/-- Modelled from the spec: fewer than 3 months is `insufficient data`;
otherwise the label is decided by the sign of the least-squares slope.  The
spec's epsilon is taken as 0, the one value consistent with its own test
properties (every strictly decreasing series must classify `improving` and
every flat series `stable`). -/
def classifyTrend (y : List ℚ) : Trend :=
  if y.length < 3 then .insufficientData
  else if lsSlope y < 0 then .improving
  else if 0 < lsSlope y then .deteriorating
  else .stable

/-! ### Pearson correlation (Correlation Engine) -/

/-- Modelled from the spec: the paired, non-null samples of two variables
(rows where either value is missing are dropped). -/
def validPairs (xs ys : List (Option ℚ)) : List (ℚ × ℚ) :=
  (xs.zip ys).filterMap fun p =>
    match p.1, p.2 with
    | some a, some b => some (a, b)
    | _, _ => none

/-- First coordinate of the `i`-th valid pair. -/
def pFst (ps : List (ℚ × ℚ)) (i : ℕ) : ℚ := (ps.getD i (0, 0)).1

/-- Second coordinate of the `i`-th valid pair. -/
def pSnd (ps : List (ℚ × ℚ)) (i : ℕ) : ℚ := (ps.getD i (0, 0)).2

/-- Mean of the first coordinates. -/
def meanFst (ps : List (ℚ × ℚ)) : ℚ :=
  (∑ i ∈ Finset.range ps.length, pFst ps i) / (ps.length : ℚ)

/-- Mean of the second coordinates. -/
def meanSnd (ps : List (ℚ × ℚ)) : ℚ :=
  (∑ i ∈ Finset.range ps.length, pSnd ps i) / (ps.length : ℚ)

/-- Centered product sum (covariance numerator). -/
def covQ (ps : List (ℚ × ℚ)) : ℚ :=
  ∑ i ∈ Finset.range ps.length, (pFst ps i - meanFst ps) * (pSnd ps i - meanSnd ps)

/-- Centered square sum of the first coordinates. -/
def varFst (ps : List (ℚ × ℚ)) : ℚ :=
  ∑ i ∈ Finset.range ps.length, (pFst ps i - meanFst ps) ^ 2

/-- Centered square sum of the second coordinates. -/
def varSnd (ps : List (ℚ × ℚ)) : ℚ :=
  ∑ i ∈ Finset.range ps.length, (pSnd ps i - meanSnd ps) ^ 2

/-- Modelled from the spec: the standard product-moment coefficient of a list
of valid pairs, in exact real arithmetic. -/
noncomputable def pearsonR (ps : List (ℚ × ℚ)) : ℝ :=
  (covQ ps : ℝ) / (Real.sqrt (varFst ps) * Real.sqrt (varSnd ps))

/-- Modelled from the spec: Pearson correlation of two variables; `none`
(JSON `null`) — not zero — when fewer than 2 valid pairs exist. -/
noncomputable def pearson (xs ys : List (Option ℚ)) : Option ℝ :=
  if (validPairs xs ys).length < 2 then none
  else some (pearsonR (validPairs xs ys))

/-- Modelled from the spec: time-lag correlation at `lag` days: the
explanatory variable is shifted backward by `lag`, row `t` of AQI is paired
with row `t − lag` of the weather variable, and unpaired boundary rows are
dropped (the `zip` truncation). -/
noncomputable def timeLagCorr (aqi weather : List (Option ℚ)) (lag : ℕ) : Option ℝ :=
  pearson (aqi.drop lag) weather

/-- Modelled from the spec: the correlation matrix entry for variables `i`
and `j` — pairwise Pearson, mirrored across the diagonal, diagonal fixed
at 1. -/
noncomputable def corrMatrix (vars : List (List (Option ℚ))) (i j : ℕ) : Option ℝ :=
  if i = j then some 1 else pearson (vars.getD i []) (vars.getD j [])

/-! ### Forecasting Engine -/

/-- Extrapolated trend value `intercept + slope · (n − 1 + t)`, `t` periods
after the last observation. -/
def fitPoint (y : List ℚ) (t : ℕ) : ℚ :=
  lsIntercept y + lsSlope y * ((y.length - 1 + t : ℕ) : ℚ)

/-- Modelled from the spec: the backend forecasting model is not in the
repository.  Deterministic linear-trend point forecast with the spec's
graceful degradation to the naive mean forecast on short history, clipped
at 0 because AQI and pollutant levels are non-negative. -/
def pointForecast (y : List ℚ) (t : ℕ) : ℚ :=
  max 0 (if y.length < 3 then meanQ y else fitPoint y t)

/-- Mean absolute deviation of the history, the interval width unit. -/
def madQ (y : List ℚ) : ℚ :=
  (∑ i ∈ Finset.range y.length, |y.getD i 0 - meanQ y|) / (y.length : ℚ)

/-- One forecasted day: horizon index (days after the last observation),
point estimate and confidence bounds. -/
structure FPoint where
  t : ℕ
  forecast : ℚ
  lower : ℚ
  upper : ℚ
deriving DecidableEq, Repr

/-- Modelled from the spec: point + interval forecast for `periods` future
days; the interval half-width grows linearly with the horizon. -/
def forecastSeries (y : List ℚ) (periods : ℕ) : List FPoint :=
  (List.range periods).map fun k =>
    ⟨k + 1, pointForecast y (k + 1),
      pointForecast y (k + 1) - madQ y * (k + 1),
      pointForecast y (k + 1) + madQ y * (k + 1)⟩

/-- Modelled from the spec: the anomaly threshold is a single scalar derived
from the historical distribution — the 95th percentile. -/
def anomalyThreshold (y : List ℚ) : ℚ := percentile 95 100 y

/-- Modelled from the spec: the forecasted days whose point estimate exceeds
the anomaly threshold. -/
def anomalies (y : List ℚ) (periods : ℕ) : List FPoint :=
  (forecastSeries y periods).filter fun f => anomalyThreshold y < f.forecast

/-- Pointwise scaling of a series. -/
def scale (c : ℚ) (y : List ℚ) : List ℚ := y.map (c * ·)

/-- Modelled from the spec: the what-if emission analysis multiplies the
historical pollutant series by `1 − fraction` before refitting. -/
def reducedSeries (r : ℚ) (y : List ℚ) : List ℚ := scale (1 - r) y

/-- Modelled from the spec: AQI forecast under an emission reduction `r` of a
pollutant on which AQI depends non-negatively (coefficient `β ≥ 0`): the
pollutant model is refit on the reduced series and AQI derived through the
dependency. -/
def whatIfAQIForecast (β r : ℚ) (y : List ℚ) (t : ℕ) : ℚ :=
  β * pointForecast (reducedSeries r y) t

/-! ### Scatter sampling (from `sampleAndJitter`, `CorrelationAnalysisScreen.js`) -/

/-- The index list `idxs` of `sampleAndJitter` after
`idxs.sort(() => 0.5 - Math.random()).slice(0, maxPoints)`: the randomized
sort is modelled by the permutation `perm` of `range n` it produces; when
the population does not exceed the cap the indices stay `0, …, n−1`. -/
def sampleIdxs (n maxPoints : ℕ) (perm : List ℕ) : List ℕ :=
  if maxPoints < n then perm.take maxPoints else List.range n

/-- `sampleAndJitter` from `CorrelationAnalysisScreen.js`: the sampled
indices mapped to jittered points; the jitter offsets produced by
`(Math.random() - 0.5) * jitter` are modelled by the functions `jx`, `jy`. -/
def sampleAndJitter (xs ys : List ℚ) (maxPoints : ℕ) (perm : List ℕ)
    (jx jy : ℕ → ℚ) : List (ℚ × ℚ) :=
  (sampleIdxs xs.length maxPoints perm).map fun i =>
    (xs.getD i 0 + jx i, ys.getD i 0 + jy i)

/-- Sum of pointwise products of two equally indexed series. -/
def sProd (xs ys : List ℚ) : ℚ :=
  ∑ i ∈ Finset.range xs.length, xs.getD i 0 * ys.getD i 0

/-- Sum of squares of a series. -/
def sSq (xs : List ℚ) : ℚ :=
  ∑ i ∈ Finset.range xs.length, xs.getD i 0 ^ 2

/-- Modelled from the spec: OLS slope of `y` on `x` over the full
population. -/
def olsSlope (xs ys : List ℚ) : ℚ :=
  ((xs.length : ℚ) * sProd xs ys - sVal xs * sVal ys) /
    ((xs.length : ℚ) * sSq xs - sVal xs ^ 2)

/-- Modelled from the spec: OLS intercept over the full population. -/
def olsIntercept (xs ys : List ℚ) : ℚ :=
  (sVal ys - olsSlope xs ys * sVal xs) / (xs.length : ℚ)

/-- Modelled from the spec: R² over the full population. -/
def olsR2 (xs ys : List ℚ) : ℚ :=
  ((xs.length : ℚ) * sProd xs ys - sVal xs * sVal ys) ^ 2 /
    (((xs.length : ℚ) * sSq xs - sVal xs ^ 2) *
      ((xs.length : ℚ) * sSq ys - sVal ys ^ 2))

/-- A scatter response: the (randomized) display sample together with the
regression statistics, which are computed on the full population. -/
def scatterResult (xs ys : List ℚ) (maxPoints : ℕ) (perm : List ℕ)
    (jx jy : ℕ → ℚ) : List (ℚ × ℚ) × ℚ × ℚ × ℚ :=
  (sampleAndJitter xs ys maxPoints perm jx jy,
    olsSlope xs ys, olsIntercept xs ys, olsR2 xs ys)

/-! ## Spike detection -/

/-- Claim C1: a point of a city's aggregate series is reported as a spike iff
its AQI exceeds the 90th percentile of the city's full AQI distribution; the
spike list preserves the chronological order of the series; and on the Delhi
series `[80, 85, 90, 95, 300, 88, 82]` over 7 consecutive days exactly the
day with AQI = 300 is flagged. -/
theorem spike_detection_C1 :
    (∀ (series : List TPoint) (x : TPoint), x ∈ series →
        (x ∈ spikes series ↔ spikeThreshold series < x.aqi))
    ∧ (∀ series : List TPoint, Chron series → Chron (spikes series))
    ∧ spikes delhi = [⟨4, 300⟩] := by
  refine ⟨?_, ?_, ?_⟩
  · intro series x hx
    simp [spikes, List.mem_filter, hx]
  · intro series h
    exact h.sublist (List.filter_sublist _)
  · norm_num [spikes, spikeThreshold, percentile, sortQ, insertQ, delhi, List.filter,
      TPoint.mk.injEq]

/-- Witness for C1 at the Delhi series. -/
theorem spike_detection_C1_witness :
    ((⟨4, 300⟩ : TPoint) ∈ spikes delhi ↔ spikeThreshold delhi < 300)
    ∧ Chron (spikes delhi) :=
  ⟨spike_detection_C1.1 delhi ⟨4, 300⟩ (by decide),
   spike_detection_C1.2.1 delhi (by decide)⟩


/-! ## Health-impact lookup -/

/-- Claim C9: the health-impact lookup maps every (non-negative) AQI value to
exactly one of the six ordinal categories Good, Moderate, Unhealthy for
Sensitive (Groups), Unhealthy, Very Unhealthy, Hazardous, with the
breakpoints 0–50, 51–100, 101–150, 151–200, 201–300 and 301+, matching the
`AQI_COLORS` table and `getAQIColor` of `MapSection`. -/
theorem health_lookup_C9 (aqi : ℚ) (h0 : 0 ≤ aqi) :
    aqiCategory aqi ∈
      ["Good", "Moderate", "Unhealthy for Sensitive", "Unhealthy",
       "Very Unhealthy", "Hazardous"]
    ∧ ((aqiCategory aqi = "Good" ∧ getAQIColor (some aqi) = "#43a047") ↔ aqi ≤ 50)
    ∧ ((aqiCategory aqi = "Moderate" ∧ getAQIColor (some aqi) = "#fbc02d") ↔
        50 < aqi ∧ aqi ≤ 100)
    ∧ ((aqiCategory aqi = "Unhealthy for Sensitive" ∧ getAQIColor (some aqi) = "#fb8c00") ↔
        100 < aqi ∧ aqi ≤ 150)
    ∧ ((aqiCategory aqi = "Unhealthy" ∧ getAQIColor (some aqi) = "#e53935") ↔
        150 < aqi ∧ aqi ≤ 200)
    ∧ ((aqiCategory aqi = "Very Unhealthy" ∧ getAQIColor (some aqi) = "#8e24aa") ↔
        200 < aqi ∧ aqi ≤ 300)
    ∧ ((aqiCategory aqi = "Hazardous" ∧ getAQIColor (some aqi) = "#6d4c41") ↔ 300 < aqi) := by
  have hpair : (aqiCategory aqi, getAQIColor (some aqi)) =
      (if aqi ≤ 50 then ("Good", "#43a047")
       else if aqi ≤ 100 then ("Moderate", "#fbc02d")
       else if aqi ≤ 150 then ("Unhealthy for Sensitive", "#fb8c00")
       else if aqi ≤ 200 then ("Unhealthy", "#e53935")
       else if aqi ≤ 300 then ("Very Unhealthy", "#8e24aa")
       else ("Hazardous", "#6d4c41")) := by
    simp only [aqiCategory, getAQIColor, AQI_COLORS]
    by_cases h1 : aqi ≤ 50
    · rw [List.find?_cons_of_pos _ (by simpa using h1)]; simp [h1]
    · rw [List.find?_cons_of_neg _ (by simpa using h1)]
      by_cases h2 : aqi ≤ 100
      · rw [List.find?_cons_of_pos _ (by simpa using h2)]; simp [h1, h2]
      · rw [List.find?_cons_of_neg _ (by simpa using h2)]
        by_cases h3 : aqi ≤ 150
        · rw [List.find?_cons_of_pos _ (by simpa using h3)]; simp [h1, h2, h3]
        · rw [List.find?_cons_of_neg _ (by simpa using h3)]
          by_cases h4 : aqi ≤ 200
          · rw [List.find?_cons_of_pos _ (by simpa using h4)]; simp [h1, h2, h3, h4]
          · rw [List.find?_cons_of_neg _ (by simpa using h4)]
            by_cases h5 : aqi ≤ 300
            · rw [List.find?_cons_of_pos _ (by simpa using h5)]; simp [h1, h2, h3, h4, h5]
            · rw [List.find?_cons_of_neg _ (by simpa using h5)]
              by_cases h6 : aqi ≤ 500
              · rw [List.find?_cons_of_pos _ (by simpa using h6)]
                simp [h1, h2, h3, h4, h5]
              · rw [List.find?_cons_of_neg _ (by simpa using h6)]
                simp [h1, h2, h3, h4, h5]
  have hcat := congrArg Prod.fst hpair
  have hcol := congrArg Prod.snd hpair
  simp only at hcat hcol
  rw [hcat, hcol]
  split_ifs with h1 h2 h3 h4 h5 <;> simp only [not_le] at * <;>
    refine ⟨by simp, ?_, ?_, ?_, ?_, ?_, ?_⟩ <;> simp <;>
      first
      | linarith
      | (rintro ⟨a, b⟩; linarith)
      | (intro a; linarith)
      | (constructor <;> linarith)

/-- Witness for C9 at AQI = 120. -/
theorem health_lookup_C9_witness :
    (aqiCategory 120 = "Unhealthy for Sensitive" ∧
        getAQIColor (some 120) = "#fb8c00") ↔
      100 < (120 : ℚ) ∧ (120 : ℚ) ≤ 150 :=
  (health_lookup_C9 120 (by decide)).2.2.2.1


/-! ## Map markers: latest observation per city -/

lemma chooseLater_date_left (cur d : Obs) : cur.date ≤ (chooseLater cur d).date := by
  unfold chooseLater; split
  · exact le_of_lt ‹_›
  · exact le_refl _

lemma chooseLater_date_right (cur d : Obs) : d.date ≤ (chooseLater cur d).date := by
  unfold chooseLater; split
  · exact le_refl _
  · exact not_lt.mp ‹_›

lemma chooseLater_mem (cur d : Obs) : chooseLater cur d = cur ∨ chooseLater cur d = d := by
  unfold chooseLater; split
  · exact Or.inr rfl
  · exact Or.inl rfl

lemma chooseMax_mem (cur : Obs) (l : List Obs) : chooseMax cur l ∈ cur :: l := by
  induction l generalizing cur with
  | nil => simp [chooseMax]
  | cons d rest ih =>
    simp only [chooseMax]
    have h := ih (chooseLater cur d)
    rcases List.mem_cons.mp h with h1 | h1
    · rcases chooseLater_mem cur d with hcl | hcl
      · rw [h1, hcl]; exact List.mem_cons_self _ _
      · rw [h1, hcl]; exact List.mem_cons_of_mem _ (List.mem_cons_self _ _)
    · exact List.mem_cons_of_mem _ (List.mem_cons_of_mem _ h1)

lemma chooseMax_le (cur : Obs) (l : List Obs) :
    ∀ d ∈ cur :: l, d.date ≤ (chooseMax cur l).date := by
  induction l generalizing cur with
  | nil =>
    intro d hd
    rcases List.mem_cons.mp hd with h | h
    · subst h; simp [chooseMax]
    · simp at h
  | cons e rest ih =>
    intro d hd
    simp only [chooseMax]
    rcases List.mem_cons.mp hd with h | h
    · subst h
      exact le_trans (chooseLater_date_left d e)
        (ih (chooseLater d e) _ (List.mem_cons_self _ _))
    · rcases List.mem_cons.mp h with h1 | h1
      · subst h1
        exact le_trans (chooseLater_date_right cur d)
          (ih (chooseLater cur d) _ (List.mem_cons_self _ _))
      · exact ih (chooseLater cur e) d (List.mem_cons_of_mem _ h1)

lemma chooseMax_first (cur : Obs) (l : List Obs) :
    (cur :: l).find? (fun d => (chooseMax cur l).date ≤ d.date) = some (chooseMax cur l) := by
  induction l generalizing cur with
  | nil =>
    simp only [chooseMax]
    rw [List.find?_cons_of_pos _ (by simp)]
  | cons d rest ih =>
    simp only [chooseMax]
    by_cases hcd : cur.date < d.date
    · have hcl : chooseLater cur d = d := by simp [chooseLater, hcd]
      simp only [hcl]
      have hd : d.date ≤ (chooseMax d rest).date :=
        chooseMax_le d rest d (List.mem_cons_self _ _)
      rw [List.find?_cons_of_neg]
      · exact ih d
      · simp only [decide_eq_true_eq]; omega
    · have hcl : chooseLater cur d = cur := by simp [chooseLater, hcd]
      simp only [hcl]
      have hdc : d.date ≤ cur.date := not_lt.mp hcd
      have ihc := ih cur
      by_cases hm : (chooseMax cur rest).date ≤ cur.date
      · have hcur : chooseMax cur rest = cur := by
          rw [List.find?_cons_of_pos _ (by simpa using hm)] at ihc
          exact (Option.some.inj ihc).symm
        rw [hcur]
        rw [List.find?_cons_of_pos _ (by simp)]
      · have hm' : cur.date < (chooseMax cur rest).date := not_le.mp hm
        rw [List.find?_cons_of_neg _ (by simpa using hm), List.find?_cons_of_neg]
        · rw [List.find?_cons_of_neg _ (by simpa using hm)] at ihc
          exact ihc
        · simp only [decide_eq_true_eq]; omega

lemma jsUnique_aux (l acc : List String) (h : acc.Nodup) :
    (l.foldl (fun acc c => if c ∈ acc then acc else acc ++ [c]) acc).Nodup := by
  induction l generalizing acc with
  | nil => simpa
  | cons c rest ih =>
    simp only [List.foldl_cons]
    by_cases hc : c ∈ acc
    · rw [if_pos hc]; exact ih _ h
    · rw [if_neg hc]
      exact ih _ (by simp [List.nodup_append, h, hc])

lemma jsUnique_nodup (l : List String) : (jsUnique l).Nodup :=
  jsUnique_aux l [] (by simp)

/-- Claim C10: the map renders at most one marker per distinct city (the
rendered city list is duplicate-free), and the observation shown for a city
is a row of that city whose `Date` is maximal; among rows sharing the
maximal date the earliest-occurring row of the input is kept (it is the
first row whose date is not below the maximum). -/
theorem map_latest_C10 (data : List Obs) (c : String) :
    (jsUnique (data.map Obs.city)).Nodup
    ∧ (∀ r, latestByCity data c = some r →
        r ∈ data.filter (fun d => d.city == c)
        ∧ (∀ d ∈ data.filter (fun d => d.city == c), d.date ≤ r.date)
        ∧ (data.filter (fun d => d.city == c)).find?
            (fun d => r.date ≤ d.date) = some r)
    ∧ (data.filter (fun d => d.city == c) ≠ [] →
        ∃ r, latestByCity data c = some r) := by
  refine ⟨jsUnique_nodup _, ?_, ?_⟩
  · intro r hr
    unfold latestByCity at hr
    cases hf : data.filter (fun d => d.city == c) with
    | nil => rw [hf] at hr; simp at hr
    | cons d rest =>
      rw [hf] at hr
      simp only [Option.some.injEq] at hr
      subst hr
      exact ⟨hf ▸ chooseMax_mem d rest, hf ▸ chooseMax_le d rest,
        hf ▸ chooseMax_first d rest⟩
  · intro hne
    unfold latestByCity
    cases hf : data.filter (fun d => d.city == c) with
    | nil => exact absurd hf hne
    | cons d rest => exact ⟨_, rfl⟩

/-- Witness for C10 on a three-row input with a duplicate city. -/
theorem map_latest_C10_witness :
    ∃ r, latestByCity
      [⟨"Delhi", 1, some 80⟩, ⟨"Agra", 5, some 90⟩, ⟨"Delhi", 3, some 100⟩]
      "Delhi" = some r :=
  (map_latest_C10 _ "Delhi").2.2 (by decide)


/-! ## Trend classification -/

lemma sum_pair_expand (n : ℕ) (f g : ℕ → ℚ) :
    ∑ i ∈ Finset.range n, ∑ j ∈ Finset.range n, (f i - f j) * (g i - g j)
      = 2 * ((n : ℚ) * (∑ i ∈ Finset.range n, f i * g i)
          - (∑ i ∈ Finset.range n, f i) * (∑ i ∈ Finset.range n, g i)) := by
  have hinner : ∀ i, ∑ j ∈ Finset.range n, (f i - f j) * (g i - g j)
      = (n : ℚ) * (f i * g i)
        - f i * (∑ j ∈ Finset.range n, g j)
        - (∑ j ∈ Finset.range n, f j) * g i
        + ∑ j ∈ Finset.range n, f j * g j := by
    intro i
    have hsplit : ∀ j ∈ Finset.range n, (f i - f j) * (g i - g j)
        = f i * g i - f i * g j - f j * g i + f j * g j := by
      intro j _; ring
    rw [Finset.sum_congr rfl hsplit]
    simp only [Finset.sum_add_distrib, Finset.sum_sub_distrib, ← Finset.mul_sum,
      ← Finset.sum_mul, Finset.sum_const, Finset.card_range, nsmul_eq_mul]
    ring
  rw [Finset.sum_congr rfl (fun i _ => hinner i)]
  simp only [Finset.sum_add_distrib, Finset.sum_sub_distrib, ← Finset.mul_sum,
    ← Finset.sum_mul, Finset.sum_const, Finset.card_range, nsmul_eq_mul]
  ring

lemma sum_neg_of_nonpos {s : Finset ℕ} {f : ℕ → ℚ} (h0 : ∀ i ∈ s, f i ≤ 0)
    (hx : ∃ i ∈ s, f i < 0) : ∑ i ∈ s, f i < 0 := by
  have h := Finset.sum_lt_sum h0 hx
  simpa using h

lemma lsNum_expand (y : List ℚ) :
    2 * lsNum y = ∑ i ∈ Finset.range y.length, ∑ j ∈ Finset.range y.length,
      ((i : ℚ) - (j : ℚ)) * (y.getD i 0 - y.getD j 0) := by
  rw [sum_pair_expand]
  unfold lsNum sIdxVal sIdx sVal
  ring

lemma lsDen_expand (n : ℕ) :
    2 * lsDen n = ∑ i ∈ Finset.range n, ∑ j ∈ Finset.range n,
      ((i : ℚ) - (j : ℚ)) ^ 2 := by
  have h := sum_pair_expand n (fun i => (i : ℚ)) (fun i => (i : ℚ))
  simp only [← sq] at h
  rw [h]
  unfold lsDen sIdxSq sIdx
  ring

lemma lsDen_pos {n : ℕ} (hn : 2 ≤ n) : 0 < lsDen n := by
  have h2 : 0 < 2 * lsDen n := by
    rw [lsDen_expand]
    apply Finset.sum_pos'
    · intro i _
      exact Finset.sum_nonneg fun j _ => sq_nonneg _
    · refine ⟨0, Finset.mem_range.mpr (by omega), ?_⟩
      apply Finset.sum_pos'
      · intro j _; exact sq_nonneg _
      · exact ⟨1, Finset.mem_range.mpr (by omega), by norm_num⟩
  linarith

lemma lsNum_neg {y : List ℚ} (h2 : 2 ≤ y.length)
    (hdec : y.Pairwise (fun a b => b < a)) : lsNum y < 0 := by
  have hlt : ∀ i j, i < y.length → j < y.length → i < j →
      y.getD j 0 < y.getD i 0 := by
    intro i j hi hj hij
    rw [List.getD_eq_getElem _ _ hi, List.getD_eq_getElem _ _ hj]
    exact List.pairwise_iff_getElem.mp hdec i j hi hj hij
  have key : ∀ i ∈ Finset.range y.length, ∀ j ∈ Finset.range y.length,
      ((i : ℚ) - (j : ℚ)) * (y.getD i 0 - y.getD j 0) ≤ 0 := by
    intro i hi j hj
    rw [Finset.mem_range] at hi hj
    rcases lt_trichotomy i j with h | h | h
    · have hy := hlt i j hi hj h
      have hij : ((i : ℚ) - (j : ℚ)) < 0 := by
        have : (i : ℚ) < (j : ℚ) := by exact_mod_cast h
        linarith
      nlinarith
    · subst h; simp
    · have hy := hlt j i hj hi h
      have hij : (0 : ℚ) < (i : ℚ) - (j : ℚ) := by
        have : (j : ℚ) < (i : ℚ) := by exact_mod_cast h
        linarith
      nlinarith
  have hstrict : ((0 : ℚ) - (1 : ℚ)) * (y.getD 0 0 - y.getD 1 0) < 0 := by
    have hy := hlt 0 1 (by omega) (by omega) (by omega)
    nlinarith
  have hsum : 2 * lsNum y < 0 := by
    rw [lsNum_expand]
    apply sum_neg_of_nonpos
    · intro i hi
      exact Finset.sum_nonpos fun j hj => key i hi j hj
    · refine ⟨0, Finset.mem_range.mpr (by omega), ?_⟩
      apply sum_neg_of_nonpos
      · intro j hj
        exact key 0 (Finset.mem_range.mpr (by omega)) j hj
      · refine ⟨1, Finset.mem_range.mpr (by omega), ?_⟩
        simpa using hstrict
  linarith

lemma lsNum_pos {y : List ℚ} (h2 : 2 ≤ y.length)
    (hinc : y.Pairwise (fun a b => a < b)) : 0 < lsNum y := by
  have hlt : ∀ i j, i < y.length → j < y.length → i < j →
      y.getD i 0 < y.getD j 0 := by
    intro i j hi hj hij
    rw [List.getD_eq_getElem _ _ hi, List.getD_eq_getElem _ _ hj]
    exact List.pairwise_iff_getElem.mp hinc i j hi hj hij
  have key : ∀ i ∈ Finset.range y.length, ∀ j ∈ Finset.range y.length,
      (0 : ℚ) ≤ ((i : ℚ) - (j : ℚ)) * (y.getD i 0 - y.getD j 0) := by
    intro i hi j hj
    rw [Finset.mem_range] at hi hj
    rcases lt_trichotomy i j with h | h | h
    · have hy := hlt i j hi hj h
      have hij : ((i : ℚ) - (j : ℚ)) < 0 := by
        have : (i : ℚ) < (j : ℚ) := by exact_mod_cast h
        linarith
      nlinarith
    · subst h; simp
    · have hy := hlt j i hj hi h
      have hij : (0 : ℚ) < (i : ℚ) - (j : ℚ) := by
        have : (j : ℚ) < (i : ℚ) := by exact_mod_cast h
        linarith
      nlinarith
  have hstrict : (0 : ℚ) < ((1 : ℚ) - (0 : ℚ)) * (y.getD 1 0 - y.getD 0 0) := by
    have hy := hlt 0 1 (by omega) (by omega) (by omega)
    nlinarith
  have hsum : 0 < 2 * lsNum y := by
    rw [lsNum_expand]
    apply Finset.sum_pos'
    · intro i hi
      exact Finset.sum_nonneg fun j hj => key i hi j hj
    · refine ⟨1, Finset.mem_range.mpr (by omega), ?_⟩
      apply Finset.sum_pos'
      · intro j hj
        exact key 1 (Finset.mem_range.mpr (by omega)) j hj
      · refine ⟨0, Finset.mem_range.mpr (by omega), ?_⟩
        simpa using hstrict
  linarith

lemma lsNum_const {y : List ℚ} {c : ℚ} (h : ∀ v ∈ y, v = c) : lsNum y = 0 := by
  have hv : ∀ i ∈ Finset.range y.length, y.getD i 0 = c := by
    intro i hi
    rw [Finset.mem_range] at hi
    rw [List.getD_eq_getElem _ _ hi]
    exact h _ (List.getElem_mem _)
  have h1 : sIdxVal y = sIdx y.length * c := by
    unfold sIdxVal sIdx
    rw [Finset.sum_congr rfl fun i hi => by rw [hv i hi], ← Finset.sum_mul]
  have h2 : sVal y = (y.length : ℚ) * c := by
    unfold sVal
    rw [Finset.sum_congr rfl hv]
    simp [Finset.sum_const, Finset.card_range, nsmul_eq_mul]
  unfold lsNum
  rw [h1, h2]
  ring

lemma classify_char (y : List ℚ) (h3 : 3 ≤ y.length) :
    (classifyTrend y = .improving ↔ lsSlope y < 0)
    ∧ (classifyTrend y = .deteriorating ↔ 0 < lsSlope y)
    ∧ (classifyTrend y = .stable ↔ lsSlope y = 0) := by
  have hn : ¬ (y.length < 3) := by omega
  unfold classifyTrend
  rw [if_neg hn]
  rcases lt_trichotomy (lsSlope y) 0 with h | h | h
  · rw [if_pos h]
    exact ⟨iff_of_true rfl h, iff_of_false (by decide) (by linarith),
      iff_of_false (by decide) (by linarith)⟩
  · rw [if_neg (by simp [h]), if_neg (by simp [h])]
    exact ⟨iff_of_false (by decide) (by linarith), iff_of_false (by decide) (by linarith),
      iff_of_true rfl h⟩
  · rw [if_neg (by linarith), if_pos h]
    exact ⟨iff_of_false (by decide) (by linarith), iff_of_true rfl h,
      iff_of_false (by decide) (by linarith)⟩

/-- Claim C2: trend classification returns exactly one of the four labels,
decided by the least-squares slope — `improving` iff the slope is negative,
`deteriorating` iff positive, `stable` iff zero, `insufficient data` below 3
months; in particular every strictly decreasing series of 3 or more months is
`improving`, every strictly increasing one `deteriorating`, every flat one
`stable`, and a 2-month series `insufficient data`. -/
theorem trend_classification_C2 :
    (∀ y : List ℚ, 3 ≤ y.length →
        ((classifyTrend y = .improving ↔ lsSlope y < 0)
          ∧ (classifyTrend y = .deteriorating ↔ 0 < lsSlope y)
          ∧ (classifyTrend y = .stable ↔ lsSlope y = 0)))
    ∧ (∀ y : List ℚ, y.length < 3 → classifyTrend y = .insufficientData)
    ∧ (∀ y : List ℚ, 3 ≤ y.length → y.Pairwise (fun a b => b < a) →
        classifyTrend y = .improving)
    ∧ (∀ y : List ℚ, 3 ≤ y.length → y.Pairwise (fun a b => a < b) →
        classifyTrend y = .deteriorating)
    ∧ (∀ (y : List ℚ) (c : ℚ), 3 ≤ y.length → (∀ v ∈ y, v = c) →
        classifyTrend y = .stable)
    ∧ (∀ y : List ℚ, y.length = 2 → classifyTrend y = .insufficientData) := by
  refine ⟨classify_char, ?_, ?_, ?_, ?_, ?_⟩
  · intro y hy
    unfold classifyTrend
    rw [if_pos hy]
  · intro y h3 hdec
    refine (classify_char y h3).1.mpr ?_
    unfold lsSlope
    exact div_neg_of_neg_of_pos (lsNum_neg (by omega) hdec) (lsDen_pos (by omega))
  · intro y h3 hinc
    refine (classify_char y h3).2.1.mpr ?_
    unfold lsSlope
    exact div_pos (lsNum_pos (by omega) hinc) (lsDen_pos (by omega))
  · intro y c h3 hc
    refine (classify_char y h3).2.2.mpr ?_
    unfold lsSlope
    rw [lsNum_const hc, zero_div]
  · intro y hy
    unfold classifyTrend
    rw [if_pos (by omega)]

/-- Witness for C2 on concrete 3-month and 2-month series. -/
theorem trend_classification_C2_witness :
    classifyTrend [30, 20, 10] = .improving
    ∧ classifyTrend [10, 20, 30] = .deteriorating
    ∧ classifyTrend [7, 7, 7] = .stable
    ∧ classifyTrend [10, 20] = .insufficientData :=
  ⟨trend_classification_C2.2.2.1 _ (by decide) (by decide),
   trend_classification_C2.2.2.2.1 _ (by decide) (by decide),
   trend_classification_C2.2.2.2.2.1 _ 7 (by decide) (by decide),
   trend_classification_C2.2.2.2.2.2 _ (by decide)⟩

/-! ## Pearson correlation -/

lemma validPairs_swap (xs ys : List (Option ℚ)) :
    validPairs ys xs = (validPairs xs ys).map Prod.swap := by
  unfold validPairs
  rw [← List.zip_swap, List.filterMap_map, List.map_filterMap]
  congr 1
  funext p
  rcases p with ⟨a, b⟩
  cases a <;> cases b <;> simp [Prod.swap]

lemma getD_map_swap (ps : List (ℚ × ℚ)) (i : ℕ) :
    (ps.map Prod.swap).getD i (0, 0) = Prod.swap (ps.getD i (0, 0)) := by
  rw [List.getD_eq_getElem?_getD, List.getD_eq_getElem?_getD, List.getElem?_map]
  cases h : ps[i]? <;> simp [Prod.swap]

lemma stats_swap (ps : List (ℚ × ℚ)) :
    meanFst (ps.map Prod.swap) = meanSnd ps
    ∧ meanSnd (ps.map Prod.swap) = meanFst ps
    ∧ covQ (ps.map Prod.swap) = covQ ps
    ∧ varFst (ps.map Prod.swap) = varSnd ps
    ∧ varSnd (ps.map Prod.swap) = varFst ps := by
  have hf : ∀ i, pFst (ps.map Prod.swap) i = pSnd ps i := by
    intro i; unfold pFst pSnd; rw [getD_map_swap]; rfl
  have hs : ∀ i, pSnd (ps.map Prod.swap) i = pFst ps i := by
    intro i; unfold pFst pSnd; rw [getD_map_swap]; rfl
  have hlen : (ps.map Prod.swap).length = ps.length := List.length_map _ _
  have hmf : meanFst (ps.map Prod.swap) = meanSnd ps := by
    unfold meanFst meanSnd
    rw [hlen, Finset.sum_congr rfl fun i _ => hf i]
  have hms : meanSnd (ps.map Prod.swap) = meanFst ps := by
    unfold meanFst meanSnd
    rw [hlen, Finset.sum_congr rfl fun i _ => hs i]
  refine ⟨hmf, hms, ?_, ?_, ?_⟩
  · unfold covQ
    rw [hlen]
    refine Finset.sum_congr rfl fun i _ => ?_
    rw [hf, hs, hmf, hms]
    ring
  · unfold varFst varSnd
    rw [hlen]
    exact Finset.sum_congr rfl fun i _ => by rw [hf, hmf]
  · unfold varFst varSnd
    rw [hlen]
    exact Finset.sum_congr rfl fun i _ => by rw [hs, hms]

lemma pearsonR_swap (ps : List (ℚ × ℚ)) :
    pearsonR (ps.map Prod.swap) = pearsonR ps := by
  unfold pearsonR
  rw [(stats_swap ps).2.2.1, (stats_swap ps).2.2.2.1, (stats_swap ps).2.2.2.2,
    mul_comm]

lemma pearson_symm (xs ys : List (Option ℚ)) : pearson xs ys = pearson ys xs := by
  unfold pearson
  rw [validPairs_swap xs ys, List.length_map, pearsonR_swap]

lemma covQ_sq_le (ps : List (ℚ × ℚ)) : covQ ps ^ 2 ≤ varFst ps * varSnd ps := by
  unfold covQ varFst varSnd
  exact Finset.sum_mul_sq_le_sq_mul_sq _ _ _

lemma varFst_nonneg (ps : List (ℚ × ℚ)) : 0 ≤ varFst ps :=
  Finset.sum_nonneg fun i _ => sq_nonneg _

lemma pearsonR_bounds (ps : List (ℚ × ℚ)) :
    -1 ≤ pearsonR ps ∧ pearsonR ps ≤ 1 := by
  rw [← abs_le]
  unfold pearsonR
  set D : ℝ := Real.sqrt (varFst ps) * Real.sqrt (varSnd ps) with hD
  have hDnn : 0 ≤ D := mul_nonneg (Real.sqrt_nonneg _) (Real.sqrt_nonneg _)
  rcases eq_or_lt_of_le hDnn with h0 | h0
  · rw [← h0, div_zero]; norm_num
  · have h1 : ((covQ ps : ℝ)) ^ 2 ≤ (varFst ps : ℝ) * (varSnd ps : ℝ) := by
      exact_mod_cast covQ_sq_le ps
    have h2 : |((covQ ps : ℝ))| ≤ Real.sqrt ((varFst ps : ℝ) * (varSnd ps : ℝ)) := by
      rw [← Real.sqrt_sq_eq_abs]
      exact Real.sqrt_le_sqrt h1
    have h3 : Real.sqrt ((varFst ps : ℝ) * (varSnd ps : ℝ)) = D := by
      rw [hD, Real.sqrt_mul (by exact_mod_cast varFst_nonneg ps)]
    rw [abs_div, abs_of_pos h0, div_le_one h0]
    rw [h3] at h2
    exact h2

lemma validPairs_none_cons (l : List (Option ℚ)) :
    validPairs (none :: l) (none :: l) = validPairs l l := by
  unfold validPairs
  rw [List.zip_cons_cons]
  rfl

lemma validPairs_some_cons (v : ℚ) (l : List (Option ℚ)) :
    validPairs (some v :: l) (some v :: l) = (v, v) :: validPairs l l := by
  unfold validPairs
  rw [List.zip_cons_cons]
  rfl

lemma validPairs_self_diag (xs : List (Option ℚ)) :
    ∀ p ∈ validPairs xs xs, p.1 = p.2 := by
  induction xs with
  | nil => simp [validPairs]
  | cons a l ih =>
    cases a with
    | none =>
      intro p hp
      rw [validPairs_none_cons] at hp
      exact ih p hp
    | some v =>
      intro p hp
      rw [validPairs_some_cons] at hp
      rcases List.mem_cons.mp hp with h | h
      · rw [h]
      · exact ih p h

lemma pearsonR_self {ps : List (ℚ × ℚ)} (hdiag : ∀ p ∈ ps, p.1 = p.2)
    (hne : ∃ p ∈ ps, ∃ q ∈ ps, p.1 ≠ q.1) : pearsonR ps = 1 := by
  have hfs : ∀ i, pFst ps i = pSnd ps i := by
    intro i
    unfold pFst pSnd
    rcases lt_or_le i ps.length with hi | hi
    · rw [List.getD_eq_getElem _ _ hi]
      exact hdiag _ (List.getElem_mem _)
    · rw [List.getD_eq_default _ _ hi]
  have hm : meanFst ps = meanSnd ps := by
    unfold meanFst meanSnd
    rw [Finset.sum_congr rfl fun i _ => hfs i]
  have hcv : covQ ps = varFst ps := by
    unfold covQ varFst
    refine Finset.sum_congr rfl fun i _ => ?_
    rw [← hfs i, ← hm, sq]
  have hvv : varSnd ps = varFst ps := by
    unfold varSnd varFst
    refine Finset.sum_congr rfl fun i _ => ?_
    rw [← hfs i, ← hm]
  obtain ⟨p, hp, q, hq, hpq⟩ := hne
  obtain ⟨i, hi, hpi⟩ := List.getElem_of_mem hp
  obtain ⟨j, hj, hqj⟩ := List.getElem_of_mem hq
  have hpi1 : pFst ps i = p.1 := by
    unfold pFst
    rw [List.getD_eq_getElem _ _ hi, hpi]
  have hqj1 : pFst ps j = q.1 := by
    unfold pFst
    rw [List.getD_eq_getElem _ _ hj, hqj]
  obtain ⟨k, hk, hkne⟩ : ∃ k, k < ps.length ∧ pFst ps k ≠ meanFst ps := by
    by_cases h : pFst ps i = meanFst ps
    · refine ⟨j, hj, fun hcon => hpq ?_⟩
      have hp1 : p.1 = meanFst ps := by rw [← hpi1, h]
      have hq1 : q.1 = meanFst ps := by rw [← hqj1, hcon]
      rw [hp1, hq1]
    · exact ⟨i, hi, h⟩
  have hv : 0 < varFst ps := by
    unfold varFst
    apply Finset.sum_pos'
    · intro m _; exact sq_nonneg _
    · exact ⟨k, Finset.mem_range.mpr hk,
        lt_of_le_of_ne (sq_nonneg _) (Ne.symm (pow_ne_zero 2 (sub_ne_zero.mpr hkne)))⟩
  unfold pearsonR
  rw [hcv, hvv]
  rw [Real.mul_self_sqrt (by exact_mod_cast varFst_nonneg ps)]
  exact div_self (by exact_mod_cast ne_of_gt hv)

/-- Claim C3: Pearson is symmetric and bounded in [-1,1]; the
self-correlation of a non-constant series is 1; and the correlation matrix
is symmetric with unit diagonal. -/
theorem pearson_props_C3 :
    (∀ xs ys : List (Option ℚ), pearson xs ys = pearson ys xs)
    ∧ (∀ (xs ys : List (Option ℚ)) (r : ℝ), pearson xs ys = some r →
        -1 ≤ r ∧ r ≤ 1)
    ∧ (∀ xs : List (Option ℚ), 2 ≤ (validPairs xs xs).length →
        (∃ p ∈ validPairs xs xs, ∃ q ∈ validPairs xs xs, p.1 ≠ q.1) →
        pearson xs xs = some 1)
    ∧ (∀ (vars : List (List (Option ℚ))) (i j : ℕ),
        corrMatrix vars i j = corrMatrix vars j i)
    ∧ (∀ (vars : List (List (Option ℚ))) (i : ℕ), corrMatrix vars i i = some 1) := by
  refine ⟨pearson_symm, ?_, ?_, ?_, ?_⟩
  · intro xs ys r h
    unfold pearson at h
    by_cases hc : (validPairs xs ys).length < 2
    · rw [if_pos hc] at h
      exact absurd h (by simp)
    · rw [if_neg hc, Option.some.injEq] at h
      subst h
      exact pearsonR_bounds _
  · intro xs h2 hne
    unfold pearson
    rw [if_neg (by omega)]
    rw [pearsonR_self (validPairs_self_diag xs) hne]
  · intro vars i j
    unfold corrMatrix
    by_cases h : i = j
    · subst h; rfl
    · rw [if_neg h, if_neg (Ne.symm h), pearson_symm]
  · intro vars i
    simp [corrMatrix]

/-- Witness for C3 on the series `[some 0, some 1]`. -/
theorem pearson_props_C3_witness :
    pearson [some 0, some 1] [some 0, some 1] = some 1
    ∧ (-1 ≤ (1 : ℝ) ∧ (1 : ℝ) ≤ 1) := by
  have h := pearson_props_C3.2.2.1 [some 0, some 1] (by decide) (by decide)
  exact ⟨h, pearson_props_C3.2.1 _ _ 1 h⟩

/-- Claim C4: the Pearson operation returns null — not zero — exactly when
fewer than 2 valid (paired, non-null) samples exist, and the time-lag
correlation at any lag returns null exactly when fewer than 2 valid pairs
remain after shifting and dropping boundary rows; with enough valid pairs a
real number is always produced. -/
theorem null_semantics_C4 :
    (∀ xs ys : List (Option ℚ),
        pearson xs ys = none ↔ (validPairs xs ys).length < 2)
    ∧ (∀ xs ys : List (Option ℚ), 2 ≤ (validPairs xs ys).length →
        pearson xs ys = some (pearsonR (validPairs xs ys)))
    ∧ (∀ (aqi w : List (Option ℚ)) (lag : ℕ),
        timeLagCorr aqi w lag = none ↔
          (validPairs (aqi.drop lag) w).length < 2) := by
  refine ⟨?_, ?_, ?_⟩
  · intro xs ys
    unfold pearson
    split_ifs with h
    · exact iff_of_true rfl h
    · exact iff_of_false (by simp) h
  · intro xs ys h
    unfold pearson
    rw [if_neg (by omega)]
  · intro aqi w lag
    unfold timeLagCorr pearson
    split_ifs with h
    · exact iff_of_true rfl h
    · exact iff_of_false (by simp) h

/-- Witness for C4: two valid pairs produce a real coefficient. -/
theorem null_semantics_C4_witness :
    pearson [some 0, some 1] [some 1, some 0] =
      some (pearsonR (validPairs [some 0, some 1] [some 1, some 0])) :=
  null_semantics_C4.2.1 _ _ (by decide)

/-! ## Forecasting -/

/-- Claim C5: the forecast operation is deterministic — identical historical
input and periods parameter produce identical point forecasts, identical
confidence bounds, identical anomaly threshold and identical anomaly list;
the model is a pure function of its inputs. -/
theorem forecast_deterministic_C5 :
    ∀ (y₁ y₂ : List ℚ) (p₁ p₂ : ℕ), y₁ = y₂ → p₁ = p₂ →
      forecastSeries y₁ p₁ = forecastSeries y₂ p₂
      ∧ anomalies y₁ p₁ = anomalies y₂ p₂
      ∧ anomalyThreshold y₁ = anomalyThreshold y₂
      ∧ (∀ β r t, whatIfAQIForecast β r y₁ t = whatIfAQIForecast β r y₂ t) := by
  intro y₁ y₂ p₁ p₂ hy hp
  subst hy
  subst hp
  exact ⟨rfl, rfl, rfl, fun _ _ _ => rfl⟩

/-- Witness for C5 at a concrete history. -/
theorem forecast_deterministic_C5_witness :
    forecastSeries [1, 2, 3] 5 = forecastSeries [1, 2, 3] 5
    ∧ anomalies [1, 2, 3] 5 = anomalies [1, 2, 3] 5
    ∧ anomalyThreshold [1, 2, 3] = anomalyThreshold [1, 2, 3]
    ∧ (∀ β r t, whatIfAQIForecast β r [1, 2, 3] t =
        whatIfAQIForecast β r [1, 2, 3] t) :=
  forecast_deterministic_C5 [1, 2, 3] [1, 2, 3] 5 5 rfl rfl

lemma anomalies_demo : anomalies [0, 10, 20] 1 = [⟨1, 30, 70/3, 110/3⟩] := by
  norm_num [anomalies, forecastSeries, anomalyThreshold, percentile, sortQ, insertQ,
    pointForecast, fitPoint, lsIntercept, lsSlope, lsNum, lsDen, meanQ, madQ,
    sVal, sIdx, sIdxSq, sIdxVal, List.filter, List.range_succ,
    Finset.sum_range_succ, Finset.sum_range_zero,
    List.getD_cons_succ, List.getD_cons_zero, FPoint.mk.injEq]

/-- Claim C7: the anomaly list contains exactly the forecasted days whose
point estimate exceeds the single anomaly threshold scalar derived from the
historical distribution; in particular it is a sublist of the forecast
series, so every anomaly date belongs to the forecast date set. -/
theorem anomaly_subset_C7 :
    (∀ (y : List ℚ) (periods : ℕ) (f : FPoint),
        f ∈ anomalies y periods ↔
          f ∈ forecastSeries y periods ∧ anomalyThreshold y < f.forecast)
    ∧ (∀ (y : List ℚ) (periods : ℕ),
        (anomalies y periods).Sublist (forecastSeries y periods))
    ∧ (∀ (y : List ℚ) (periods : ℕ) (f : FPoint), f ∈ anomalies y periods →
        f.t ∈ (forecastSeries y periods).map FPoint.t) := by
  refine ⟨?_, ?_, ?_⟩
  · intro y p f
    simp [anomalies, List.mem_filter]
  · intro y p
    exact List.filter_sublist _
  · intro y p f hf
    exact List.mem_map_of_mem _ (List.mem_of_mem_filter hf)

/-- Witness for C7: on the history `[0, 10, 20]` the single forecasted day
(point estimate 30, above the 95th-percentile threshold 19) is an anomaly
whose date is a forecast date. -/
theorem anomaly_subset_C7_witness :
    (1 : ℕ) ∈ (forecastSeries [0, 10, 20] 1).map FPoint.t :=
  anomaly_subset_C7.2.2 [0, 10, 20] 1 ⟨1, 30, 70/3, 110/3⟩
    (anomalies_demo ▸ List.mem_cons_self _ _)

lemma length_scale (c : ℚ) (y : List ℚ) : (scale c y).length = y.length :=
  List.length_map _ _

lemma getD_scale (c : ℚ) (y : List ℚ) (i : ℕ) :
    (scale c y).getD i 0 = c * y.getD i 0 := by
  unfold scale
  rw [List.getD_eq_getElem?_getD, List.getD_eq_getElem?_getD, List.getElem?_map]
  cases h : y[i]? <;> simp

lemma sVal_scale (c : ℚ) (y : List ℚ) : sVal (scale c y) = c * sVal y := by
  unfold sVal
  rw [length_scale, Finset.mul_sum]
  exact Finset.sum_congr rfl fun i _ => getD_scale c y i

lemma sIdxVal_scale (c : ℚ) (y : List ℚ) : sIdxVal (scale c y) = c * sIdxVal y := by
  unfold sIdxVal
  rw [length_scale, Finset.mul_sum]
  refine Finset.sum_congr rfl fun i _ => ?_
  rw [getD_scale]
  ring

lemma lsNum_scale (c : ℚ) (y : List ℚ) : lsNum (scale c y) = c * lsNum y := by
  unfold lsNum
  rw [length_scale, sIdxVal_scale, sVal_scale]
  ring

lemma lsSlope_scale (c : ℚ) (y : List ℚ) : lsSlope (scale c y) = c * lsSlope y := by
  unfold lsSlope
  rw [length_scale, lsNum_scale, mul_div_assoc]

lemma meanQ_scale (c : ℚ) (y : List ℚ) : meanQ (scale c y) = c * meanQ y := by
  unfold meanQ
  rw [length_scale, sVal_scale, mul_div_assoc]

lemma lsIntercept_scale (c : ℚ) (y : List ℚ) :
    lsIntercept (scale c y) = c * lsIntercept y := by
  unfold lsIntercept
  rw [length_scale, meanQ_scale, lsSlope_scale]
  ring

lemma fitPoint_scale (c : ℚ) (y : List ℚ) (t : ℕ) :
    fitPoint (scale c y) t = c * fitPoint y t := by
  unfold fitPoint
  rw [length_scale, lsIntercept_scale, lsSlope_scale]
  ring

lemma pointForecast_scale {c : ℚ} (hc : 0 ≤ c) (y : List ℚ) (t : ℕ) :
    pointForecast (scale c y) t = c * pointForecast y t := by
  unfold pointForecast
  rw [length_scale]
  by_cases h : y.length < 3
  · rw [if_pos h, if_pos h, meanQ_scale, mul_max_of_nonneg _ _ hc, mul_zero]
  · rw [if_neg h, if_neg h, fitPoint_scale, mul_max_of_nonneg _ _ hc, mul_zero]

lemma pointForecast_nonneg (y : List ℚ) (t : ℕ) : 0 ≤ pointForecast y t :=
  le_max_left _ _

/-- Claim C6: what-if forecasting is monotone in the reduction fraction —
for a pollutant on which the AQI model depends non-negatively (β ≥ 0) and
fractions `r₁ ≤ r₂` in [0,1] applied by scaling the history by `1 − r`
before refitting, the AQI forecast under `r₂` is nowhere greater than the
one under `r₁`. -/
theorem whatif_monotone_C6 :
    ∀ (β r₁ r₂ : ℚ) (y : List ℚ) (t : ℕ),
      0 ≤ β → 0 ≤ r₁ → r₁ ≤ r₂ → r₂ ≤ 1 →
      whatIfAQIForecast β r₂ y t ≤ whatIfAQIForecast β r₁ y t := by
  intro β r₁ r₂ y t hβ h1 h12 h2
  unfold whatIfAQIForecast reducedSeries
  have hc₂ : (0 : ℚ) ≤ 1 - r₂ := by linarith
  have hc₁ : (0 : ℚ) ≤ 1 - r₁ := by linarith
  rw [pointForecast_scale hc₂, pointForecast_scale hc₁]
  have hP : 0 ≤ pointForecast y t := pointForecast_nonneg y t
  have hcc : 1 - r₂ ≤ 1 - r₁ := by linarith
  exact mul_le_mul_of_nonneg_left (mul_le_mul_of_nonneg_right hcc hP) hβ

/-- Witness for C6 with β = 2, fractions 0 and 1 on the history `[3, 4, 5]`. -/
theorem whatif_monotone_C6_witness :
    whatIfAQIForecast 2 1 [3, 4, 5] 1 ≤ whatIfAQIForecast 2 0 [3, 4, 5] 1 :=
  whatif_monotone_C6 2 0 1 [3, 4, 5] 1 (by decide) (by decide) (by decide) (by decide)

/-! ## Scatter sampling -/

/-- Claim C8: when the population exceeds the cap the displayed sample has
exactly the cap's number of points, all points otherwise; the selection is
without replacement (no index repeats, whatever order the randomized sort
produced); and the reported regression slope, intercept and R² are computed
over the full unsampled population — they are identical for every
randomization of the sample and jitter. -/
theorem scatter_sampling_C8 :
    ∀ (xs ys : List ℚ) (maxPoints : ℕ) (perm : List ℕ) (jx jy : ℕ → ℚ),
      perm.Perm (List.range xs.length) →
      (maxPoints < xs.length →
          (sampleAndJitter xs ys maxPoints perm jx jy).length = maxPoints)
      ∧ (¬ maxPoints < xs.length →
          (sampleAndJitter xs ys maxPoints perm jx jy).length = xs.length)
      ∧ (sampleIdxs xs.length maxPoints perm).Nodup
      ∧ (∀ (perm' : List ℕ) (jx' jy' : ℕ → ℚ),
          (scatterResult xs ys maxPoints perm jx jy).2 =
            (scatterResult xs ys maxPoints perm' jx' jy').2) := by
  intro xs ys maxPoints perm jx jy hperm
  have hlen : perm.length = xs.length := by
    rw [hperm.length_eq, List.length_range]
  refine ⟨?_, ?_, ?_, ?_⟩
  · intro h
    unfold sampleAndJitter sampleIdxs
    rw [if_pos h, List.length_map, List.length_take, hlen]
    omega
  · intro h
    unfold sampleAndJitter sampleIdxs
    rw [if_neg h, List.length_map, List.length_range]
  · unfold sampleIdxs
    split_ifs with h
    · exact (List.take_sublist _ _).nodup (hperm.nodup_iff.mpr (List.nodup_range _))
    · exact List.nodup_range _
  · intro perm' jx' jy'
    rfl

/-- Witness for C8: population 3, cap 2. -/
theorem scatter_sampling_C8_witness :
    (sampleAndJitter [1, 2, 3] [4, 5, 6] 2 (List.range 3)
        (fun _ => 0) (fun _ => 0)).length = 2
    ∧ (sampleIdxs 3 2 (List.range 3)).Nodup :=
  let h := scatter_sampling_C8 [1, 2, 3] [4, 5, 6] 2 (List.range 3)
    (fun _ => 0) (fun _ => 0) (List.Perm.refl _)
  ⟨h.1 (by decide), h.2.2.1⟩

end Climate



